import Mathlib

/-!
Shallow embedding of `src/GoogleDL.py` (class `GoogleImage`): the
scroll-and-harvest loop, per-thumbnail verification and resolution, the
download and naming step, and the session bookkeeping.  The external
collaborators (selenium driver, BeautifulSoup, requests, the filesystem)
are modelled as oracles and explicit state.
-/

namespace GoogleDL

/-! ### Decimal digits: model of `str(n)` and the `0{w}d` format -/

/-- Little-endian decimal digits of the second argument, with explicit fuel
(first argument); `[]` for `0`.  Fuel equal to the number is always enough. -/
def decDigitsAux : Nat → Nat → List Nat
  | _, 0 => []
  | 0, _ + 1 => []
  | f + 1, m + 1 => (m + 1) % 10 :: decDigitsAux f ((m + 1) / 10)

/-- Little-endian decimal digits of `n` (`[]` for `0`). -/
def dRev (n : Nat) : List Nat := decDigitsAux n n

/-- Decimal representation of `n`, most significant digit first: `str(n)`
as a digit list. -/
def decRepr (n : Nat) : List Nat := if n = 0 then [0] else (dRev n).reverse

/-- `len(str(n))`. -/
def strLen (n : Nat) : Nat := (decRepr n).length

/-- The character of a decimal digit. -/
def digitChar (d : Nat) : Char := Char.ofNat (48 + d)

/-- Digits of `n` zero-padded on the left to width at least `w`: the Python
format `0{w}d` (numbers wider than `w` are printed in full). -/
def zeroPadDigits (w n : Nat) : List Nat :=
  List.replicate (w - (decRepr n).length) 0 ++ decRepr n

def zeroPadStr (w n : Nat) : String := String.mk ((zeroPadDigits w n).map digitChar)

/-- The f-string for `name_img` in `download`. -/
def nameFor (base : String) (w i : Nat) : String := base ++ "_" ++ zeroPadStr w i

/-! ### `os.path` helpers used by `_download_img` -/

/-- The part of a character list after its last `/` (the whole list when
there is no `/`). -/
def afterLastSlash : List Char → List Char
  | [] => []
  | c :: rest =>
    if rest.contains '/' then afterLastSlash rest
    else if c = '/' then rest else c :: rest

/-- `os.path.basename`. -/
def basename (s : String) : String := String.mk (afterLastSlash s.data)

/-- Suffix of a name starting at its last dot (`[]` when there is no dot). -/
def extSuffix : List Char → List Char
  | [] => []
  | c :: rest =>
    if rest.contains '.' then extSuffix rest
    else if c = '.' then c :: rest else []

/-- The extension component of `os.path.splitext`: the suffix from the last
dot, except that leading dots of the name never start an extension. -/
def splitextExt (s : String) : String :=
  String.mk (extSuffix (s.data.dropWhile (fun c => c == '.')))

/-- `os.path.join` for two components and the separator `/`, including the
absolute-second-argument rule. -/
def os_path_join (a b : String) : String :=
  if b.data.head? = some '/' then b
  else if a = "" then b
  else if a.data.getLast? = some '/' then a ++ b
  else a ++ "/" ++ b

/-! ### Filesystem and network models -/

/-- File contents are byte lists; the store maps paths to contents. -/
abbrev Fs := List (String × List Nat)

/-- `open(p, "wb")` plus `write`: create or overwrite `p` with contents `v`. -/
def fsSet (fs : Fs) (p : String) (v : List Nat) : Fs :=
  (p, v) :: fs.filter (fun e => e.1 != p)

def fsGet (fs : Fs) (p : String) : Option (List Nat) :=
  (fs.find? (fun e => e.1 == p)).map (fun e => e.2)

/-- `pat in s` for strings (Python substring containment). -/
def strContains (pat s : List Char) : Bool :=
  match s with
  | [] => pat.isEmpty
  | _ :: rest => pat.isPrefixOf s || strContains pat rest

/-- `'http' in link`. -/
def hasHttp (link : String) : Bool := strContains "http".data link.data

/-! ### The `GoogleImage` session object -/

structure GoogleImage where
  driverOpen : Bool
  time_sleep : Nat
  verbose : Bool
  all_files : List String
  ext_default : String
  close_after_download : Bool
  make_dir : Bool
  name : Option String
  n_images : Nat
deriving DecidableEq

/-- `__init__` (the driver handle starts open; `name` and `n_images` are
only assigned later, by `download`). -/
def init (time_sleep : Nat) (verbose : Bool) (ext_default : String)
    (close_after_download : Bool) (make_dir : Bool) : GoogleImage :=
  { driverOpen := true, time_sleep := time_sleep, verbose := verbose,
    all_files := [], ext_default := ext_default,
    close_after_download := close_after_download, make_dir := make_dir,
    name := none, n_images := 0 }

/-- `close`: close the webdriver. -/
def close (g : GoogleImage) : GoogleImage := { g with driverOpen := false }

/-- Oracle view of one `isv-r` thumbnail element: whether its `innerHTML`
carries the ad marker class `dPO1Qe gadasb`; the `src` of the first
`img[src*=http]` found inside `islsp` after clicking it and waiting; and
the bytes `requests.get(src).content` returns (`none` when the fetch or the
file write raises). -/
structure Thumb where
  adMarker : Bool
  srcLink : Option String
  fetchBytes : Option (List Nat)
deriving DecidableEq

def VALID_EXTENTION : List String := [".png", ".jpg", ".jpeg"]

/-- `_verify_image`: `True` when the ad marker class is absent from the
element's `innerHTML` (the Python code returns `None`, which is falsy, when
the marker is present). -/
def verify_image (t : Thumb) : Bool := !t.adMarker

/-- `_create_path_name`. -/
def create_path_name (directory : Option String) (make_dir : Bool)
    (name : String) : Option String :=
  let d := match directory with | none => "" | some dd => dd
  if make_dir then some (os_path_join d name) else none

/-- `_download_img`: returns the saved path (`None` on failure) and the
resulting file store.  `open(file, "wb")` truncates the file before the
fetch runs, so a raising fetch (`fetch = none`) leaves the empty file
behind.  `_create_path` only creates directories, which the store does not
track.  A link without `http` falls off the end of the Python function and
returns `None`. -/
def download_img (link : String) (directory : Option String)
    (ext_default : String) (name : String) (make_dir : Bool)
    (sessionName : String) (fetch : Option (List Nat)) (fs : Fs) :
    Option String × Fs :=
  if hasHttp link then
    let ext0 := splitextExt (basename link)
    let ext := if ext0 ∈ VALID_EXTENTION then ext0 else ext_default
    let name1 := name ++ ext
    let file := match create_path_name directory make_dir sessionName with
      | some p => os_path_join p name1
      | none => name1
    let fs1 := fsSet fs file []
    match fetch with
    | some bytes => (some file, fsSet fs1 file bytes)
    | none => (none, fs1)
  else (none, fs)

/-- State of one `download` call: the call-local counters, the session's
accumulated `all_files`, and the file store. -/
structure Acc where
  n_downloads : Nat
  n_unload : Nat
  n_clicks : Nat
  all_files : List String
  fs : Fs
deriving DecidableEq

/-- One iteration of the `for im in all_img` body of `download`:
ad check, click, resolution of the detail panel, download, bookkeeping.
The unloaded counter only moves when `verbose` holds, exactly as in the
source (`set_postfix` lives on the tqdm wrapper). -/
def processThumb (g : GoogleImage) (nm : String) (n_str : Nat)
    (directory : Option String) (acc : Acc) (t : Thumb) : Acc :=
  if verify_image t then
    let acc1 : Acc := { acc with n_clicks := acc.n_clicks + 1 }
    match t.srcLink with
    | none => if g.verbose then { acc1 with n_unload := acc1.n_unload + 1 } else acc1
    | some link =>
      let name_img := nameFor nm n_str acc1.n_downloads
      let r := download_img link directory g.ext_default name_img g.make_dir
        nm t.fetchBytes acc1.fs
      match r.1 with
      | some file =>
        { acc1 with n_downloads := acc1.n_downloads + 1,
                    all_files := acc1.all_files ++ [file], fs := r.2 }
      | none =>
        if g.verbose then { acc1 with n_unload := acc1.n_unload + 1, fs := r.2 }
        else { acc1 with fs := r.2 }
  else
    if g.verbose then { acc with n_unload := acc.n_unload + 1 } else acc

def downloadLoop (g : GoogleImage) (nm : String) (n_str : Nat)
    (directory : Option String) : List Thumb → Acc → Acc
  | [], acc => acc
  | t :: rest, acc =>
    downloadLoop g nm n_str directory rest (processThumb g nm n_str directory acc t)

/-- The effective base name: `name`, defaulting to the request string. -/
def effName (request : String) (name : Option String) : String :=
  match name with | none => request | some n => n

/-- The list the per-thumbnail loop ranges over: `tqdm(all_img[:n_images])`
when verbose, the untruncated `all_img` otherwise. -/
def iteratedThumbs (verbose : Bool) (n_images : Nat) (thumbs : List Thumb) :
    List Thumb :=
  if verbose then thumbs.take n_images else thumbs

/-- `download`.  `thumbs` is what `find_elements_by_class_name('isv-r')`
returns once `_scroll` has finished (the scroll itself runs against the
live driver and is modelled separately by `scroll` below); `fs` is the file
store.  Returns the updated session object and the call's final loop
state. -/
def download (g : GoogleImage) (request : String) (n_images : Nat)
    (directory : Option String) (name : Option String)
    (thumbs : List Thumb) (fs : Fs) : GoogleImage × Acc :=
  let n_str := strLen n_images
  let nm := effName request name
  let g1 := { g with name := some nm, n_images := n_images }
  let acc := downloadLoop g1 nm n_str directory
    (iteratedThumbs g1.verbose n_images thumbs)
    { n_downloads := 0, n_unload := 0, n_clicks := 0,
      all_files := g1.all_files, fs := fs }
  let g2 := { g1 with all_files := acc.all_files }
  (if g2.close_after_download then close g2 else g2, acc)

/-! ### `_scroll` -/

/-- Driver oracle for `_scroll`: `heights j` is the `j`-th
`document.body.scrollHeight` read (read `0` happens before the loop),
`thumbs j` the `isv-r` element count observed in iteration `j`, and
`loadMore j` the rendered `(width, height)` of the `mye4qd` control in
iteration `j` (`none` means the element is absent, in which case the
driver's `find_element_by_class_name` raises `NoSuchElementException`). -/
structure ScrollEnv where
  heights : Nat → Nat
  thumbs : Nat → Nat
  loadMore : Nat → Option (Nat × Nat)

inductive ScrollResult where
  | ok : ScrollResult
  | noSuchElement : ScrollResult
  | timeout : ScrollResult
deriving DecidableEq

/-- The `while True` body of `_scroll`, with fuel bounding the number of
iterations (`timeout` stands for not having exited within the fuel).  After
a click on a visible control, and likewise when the height grew, control
reaches the same tail: update `last_height`, break when more than
`n_images` thumbnails are present, else loop. -/
def scrollLoop (env : ScrollEnv) (n_images : Nat) :
    Nat → Nat → Nat → ScrollResult
  | _, _, 0 => ScrollResult.timeout
  | last, j, fuel + 1 =>
    if env.heights j = last then
      match env.loadMore j with
      | none => ScrollResult.noSuchElement
      | some sz =>
        if 0 < sz.2 ∧ 0 < sz.1 then
          if n_images < env.thumbs j then ScrollResult.ok
          else scrollLoop env n_images (env.heights j) (j + 1) fuel
        else ScrollResult.ok
    else
      if n_images < env.thumbs j then ScrollResult.ok
      else scrollLoop env n_images (env.heights j) (j + 1) fuel

def scroll (env : ScrollEnv) (n_images : Nat) (fuel : Nat) : ScrollResult :=
  scrollLoop env n_images (env.heights 0) 1 fuel

/-! ### The specification's own extension policy (for comparison) -/

/-- The query-string stripping that the specification describes for the
persist step. -/
def stripQuery (s : String) : String :=
  String.mk (s.data.takeWhile (fun c => c != '?'))

/-- Extension policy as the specification words it: derive the extension
from the URL's path suffix with any trailing query string stripped, then
substitute the default when it is not in the accepted set.  Stated from the
specification text, to be compared against `download_img`. -/
def specExt (link : String) (ext_default : String) : String :=
  let e := splitextExt (basename (stripQuery link))
  if e ∈ VALID_EXTENTION then e else ext_default

/-! ### Proof-side definitions -/

/-- The `w` base-10 digits of `n`, most significant first, truncating
digits above position `w`. -/
def bigEndian : Nat → Nat → List Nat
  | 0, _ => []
  | w + 1, n => n / 10 ^ w % 10 :: bigEndian w n

/-- Lexicographic order on strings, through their character lists. -/
def strLt (s t : String) : Prop := s.data < t.data

instance (s t : String) : Decidable (strLt s t) :=
  inferInstanceAs (Decidable (s.data < t.data))

/-- The prefix `os_path_join a b` puts before `b` when `b` is not
absolute. -/
def joinPre (a : String) : String :=
  if a = "" then "" else if a.data.getLast? = some '/' then a else a ++ "/"

/-- The directory prefix `_download_img` puts in front of the file name. -/
def filePrefix (directory : Option String) (make_dir : Bool)
    (sessionName : String) : String :=
  match create_path_name directory make_dir sessionName with
  | some p => joinPre p
  | none => ""

/-! ### Concrete inputs used for witnesses and counterexamples -/

def gV : GoogleImage := init 1 true ".png" true true

def gNV : GoogleImage := { init 1 true ".png" true true with verbose := false }

def goodPng : Thumb :=
  { adMarker := false, srcLink := some "http://x/a.png", fetchBytes := some [1] }

def goodJpg : Thumb :=
  { adMarker := false, srcLink := some "http://x/a.jpg", fetchBytes := some [1] }

def adThumb : Thumb :=
  { adMarker := true, srcLink := some "http://x/a.png", fetchBytes := some [1] }

def failThumb : Thumb :=
  { adMarker := false, srcLink := some "http://x/a.png", fetchBytes := none }

def emptyAcc : Acc :=
  { n_downloads := 0, n_unload := 0, n_clicks := 0, all_files := [], fs := [] }

/-- Driver oracle whose page height never changes, with no `mye4qd`
element anywhere. -/
def envAbsent : ScrollEnv :=
  { heights := fun _ => 100, thumbs := fun _ => 0, loadMore := fun _ => none }

/-- Driver oracle whose page height never changes, with an invisible
(zero-sized) `mye4qd` element. -/
def envInvisible : ScrollEnv :=
  { heights := fun _ => 100, thumbs := fun _ => 0,
    loadMore := fun _ => some (0, 0) }

/-! ### Lemmas on the decimal representation -/

theorem decDigitsAux_fuel : ∀ n f g, n ≤ f → n ≤ g →
    decDigitsAux f n = decDigitsAux g n := by
  intro n
  induction n using Nat.strong_induction_on with
  | _ n ih =>
    intro f g hf hg
    cases n with
    | zero => simp [decDigitsAux]
    | succ m =>
      obtain ⟨f1, rfl⟩ : ∃ f1, f = f1 + 1 := ⟨f - 1, by omega⟩
      obtain ⟨g1, rfl⟩ : ∃ g1, g = g1 + 1 := ⟨g - 1, by omega⟩
      simp only [decDigitsAux]
      have hlt : (m + 1) / 10 < m + 1 := Nat.div_lt_self (Nat.succ_pos m) (by norm_num)
      rw [ih ((m + 1) / 10) hlt f1 g1 (by omega) (by omega)]

theorem dRev_succ (n : Nat) (h : 1 ≤ n) : dRev n = n % 10 :: dRev (n / 10) := by
  obtain ⟨m, rfl⟩ : ∃ m, n = m + 1 := ⟨n - 1, by omega⟩
  show decDigitsAux (m + 1) (m + 1) = _
  simp only [decDigitsAux]
  have hlt : (m + 1) / 10 < m + 1 := Nat.div_lt_self (Nat.succ_pos m) (by norm_num)
  rw [decDigitsAux_fuel ((m + 1) / 10) m ((m + 1) / 10) (by omega) (le_refl _)]
  rfl

theorem bigEndian_length : ∀ w n, (bigEndian w n).length = w := by
  intro w
  induction w with
  | zero => intro n; rfl
  | succ w ihw => intro n; simp [bigEndian, ihw n]

theorem bigEndian_snoc : ∀ w n, bigEndian (w + 1) n = bigEndian w (n / 10) ++ [n % 10] := by
  intro w
  induction w with
  | zero => intro n; simp [bigEndian]
  | succ w ihw =>
    intro n
    have hdd : n / 10 ^ (w + 1) = n / 10 / 10 ^ w := by
      rw [Nat.div_div_eq_div_mul, ← pow_succ']
    calc bigEndian (w + 2) n
        = n / 10 ^ (w + 1) % 10 :: bigEndian (w + 1) n := rfl
      _ = n / 10 ^ (w + 1) % 10 :: (bigEndian w (n / 10) ++ [n % 10]) := by rw [ihw n]
      _ = (n / 10 / 10 ^ w % 10 :: bigEndian w (n / 10)) ++ [n % 10] := by
          rw [hdd]; rfl
      _ = bigEndian (w + 1) (n / 10) ++ [n % 10] := rfl

theorem dRev_main : ∀ n, 1 ≤ n →
    (dRev n).reverse = bigEndian (dRev n).length n ∧
    10 ^ ((dRev n).length - 1) ≤ n ∧ n < 10 ^ (dRev n).length := by
  intro n
  induction n using Nat.strong_induction_on with
  | _ n ih =>
    intro hn
    rw [dRev_succ n hn]
    by_cases h10 : n < 10
    · have hq : n / 10 = 0 := Nat.div_eq_of_lt h10
      rw [hq]
      refine ⟨?_, ?_, ?_⟩
      · simp [dRev, decDigitsAux, bigEndian, Nat.mod_eq_of_lt h10]
      · simpa [dRev, decDigitsAux] using hn
      · simpa [dRev, decDigitsAux] using h10
    · have hm1 : 1 ≤ n / 10 := by
        have hdd : 10 / 10 ≤ n / 10 := Nat.div_le_div_right (by omega)
        simpa using hdd
      have hmn : n / 10 < n := Nat.div_lt_self (by omega) (by norm_num)
      obtain ⟨h1, h2, h3⟩ := ih (n / 10) hmn hm1
      have hL1 : 1 ≤ (dRev (n / 10)).length := by
        rw [dRev_succ _ hm1]; simp
      refine ⟨?_, ?_, ?_⟩
      · simp only [List.reverse_cons, List.length_cons]
        rw [h1, bigEndian_snoc]
      · simp only [List.length_cons]
        have hps : (10:Nat) ^ ((dRev (n / 10)).length - 1 + 1)
            = 10 ^ ((dRev (n / 10)).length - 1) * 10 := pow_succ 10 _
        have hmul : (10:Nat) ^ ((dRev (n / 10)).length - 1) * 10 ≤ (n / 10) * 10 :=
          Nat.mul_le_mul_right 10 h2
        have hdm : n / 10 * 10 ≤ n := Nat.div_mul_le_self n 10
        have hnn : (dRev (n / 10)).length + 1 - 1 = (dRev (n / 10)).length - 1 + 1 := by
          omega
        rw [hnn, hps]
        omega
      · simp only [List.length_cons]
        have hps : (10:Nat) ^ ((dRev (n / 10)).length + 1)
            = 10 ^ (dRev (n / 10)).length * 10 := pow_succ 10 _
        have hmul : (n / 10 + 1) * 10 ≤ 10 ^ (dRev (n / 10)).length * 10 :=
          Nat.mul_le_mul_right 10 (by omega)
        have := Nat.div_add_mod n 10
        have hmod : n % 10 < 10 := Nat.mod_lt n (by norm_num)
        rw [hps]
        omega

theorem decRepr_length_pos (n : Nat) : 1 ≤ (decRepr n).length := by
  by_cases h : n = 0
  · simp [decRepr, h]
  · have h1 : 1 ≤ n := by omega
    simp only [decRepr, if_neg h, List.length_reverse]
    rw [dRev_succ n h1]; simp

theorem decRepr_eq_bigEndian (n : Nat) :
    decRepr n = bigEndian (decRepr n).length n := by
  by_cases h : n = 0
  · subst h; simp [decRepr, bigEndian]
  · have h1 : 1 ≤ n := by omega
    obtain ⟨ha, _, _⟩ := dRev_main n h1
    simp only [decRepr, if_neg h, List.length_reverse]
    exact ha

theorem decRepr_lt (n : Nat) : n < 10 ^ (decRepr n).length := by
  by_cases h : n = 0
  · subst h; simp [decRepr]
  · have h1 : 1 ≤ n := by omega
    obtain ⟨_, _, hc⟩ := dRev_main n h1
    simpa [decRepr, if_neg h, List.length_reverse] using hc

theorem decRepr_le (n : Nat) (h : 1 ≤ n) : 10 ^ ((decRepr n).length - 1) ≤ n := by
  obtain ⟨_, hb, _⟩ := dRev_main n h
  have hne : ¬ n = 0 := by omega
  simpa [decRepr, hne, List.length_reverse] using hb

theorem strLen_pos (n : Nat) : 1 ≤ strLen n := decRepr_length_pos n

theorem bigEndian_zero_pad : ∀ w k n, k ≤ w → n < 10 ^ k →
    bigEndian w n = List.replicate (w - k) 0 ++ bigEndian k n := by
  intro w
  induction w with
  | zero =>
    intro k n hk _
    have : k = 0 := by omega
    subst this; rfl
  | succ w ihw =>
    intro k n hk hn
    by_cases hkw : k = w + 1
    · subst hkw; simp
    · have hk' : k ≤ w := by omega
      have hlt : n < 10 ^ w :=
        lt_of_lt_of_le hn (Nat.pow_le_pow_right (by norm_num) hk')
      have h0 : n / 10 ^ w = 0 := Nat.div_eq_of_lt hlt
      have hw1 : w + 1 - k = (w - k) + 1 := by omega
      simp only [bigEndian, h0]
      rw [ihw k n hk' hn, hw1, List.replicate_succ]
      rfl

theorem decRepr_length_le (w n : Nat) (hw : 1 ≤ w) (hn : n < 10 ^ w) :
    (decRepr n).length ≤ w := by
  by_cases h : n = 0
  · subst h; simpa [decRepr] using hw
  · have h1 : 1 ≤ n := by omega
    have hle := decRepr_le n h1
    have hlt : (10:Nat) ^ ((decRepr n).length - 1) < 10 ^ w := lt_of_le_of_lt hle hn
    have := (Nat.pow_lt_pow_iff_right (by norm_num : 1 < 10)).1 hlt
    have := decRepr_length_pos n
    omega

theorem zeroPadDigits_eq_bigEndian (w n : Nat) (hw : 1 ≤ w) (hn : n < 10 ^ w) :
    zeroPadDigits w n = bigEndian w n := by
  have hlen := decRepr_length_le w n hw hn
  have hrep : decRepr n = bigEndian (decRepr n).length n := decRepr_eq_bigEndian n
  rw [zeroPadDigits]
  nth_rewrite 2 [hrep]
  rw [← bigEndian_zero_pad w (decRepr n).length n hlen (decRepr_lt n)]

theorem zeroPadDigits_length (w n : Nat) (hw : 1 ≤ w) (hn : n < 10 ^ w) :
    (zeroPadDigits w n).length = w := by
  rw [zeroPadDigits_eq_bigEndian w n hw hn, bigEndian_length]

theorem bigEndian_mod : ∀ w n, bigEndian w (n % 10 ^ w) = bigEndian w n := by
  intro w
  induction w with
  | zero => intro n; rfl
  | succ w ihw =>
    intro n
    have hsp : (10:Nat) ^ (w + 1) = 10 ^ w * 10 := pow_succ 10 w
    have hhead : n % 10 ^ (w + 1) / 10 ^ w % 10 = n / 10 ^ w % 10 := by
      rw [hsp, Nat.mod_mul_right_div_self, Nat.mod_mod_of_dvd _ (dvd_refl 10)]
    have hdvd : (10:Nat) ^ w ∣ 10 ^ (w + 1) := pow_dvd_pow 10 (by omega)
    have htail : bigEndian w (n % 10 ^ (w + 1)) = bigEndian w n := by
      calc bigEndian w (n % 10 ^ (w + 1))
          = bigEndian w (n % 10 ^ (w + 1) % 10 ^ w) := (ihw (n % 10 ^ (w + 1))).symm
        _ = bigEndian w (n % 10 ^ w) := by rw [Nat.mod_mod_of_dvd n hdvd]
        _ = bigEndian w n := ihw n
    simp only [bigEndian, hhead, htail]

theorem digitChar_lt_iff : ∀ d, d < 10 → ∀ e, e < 10 →
    (digitChar d < digitChar e ↔ d < e) := by decide

/-! ### Lexicographic order lemmas -/

theorem list_lt_append_left (p : List Char) {a b : List Char} (h : a < b) :
    p ++ a < p ++ b := by
  induction p with
  | nil => exact h
  | cons c cs ih => exact List.Lex.cons ih

theorem list_lt_append_of_length_eq : ∀ a b x y : List Char,
    a.length = b.length → a < b → a ++ x < b ++ y := by
  intro a
  induction a with
  | nil =>
    intro b x y hlen hab
    cases b with
    | nil => exact absurd hab (by intro hc; cases hc)
    | cons d ds => simp at hlen
  | cons c cs ih =>
    intro b x y hlen hab
    cases b with
    | nil => simp at hlen
    | cons d ds =>
      have hab' : List.Lex (fun u v : Char => u < v) (c :: cs) (d :: ds) := hab
      cases hab' with
      | cons h => exact List.Lex.cons (ih ds x y (by simpa using hlen) h)
      | rel h => exact List.Lex.rel h

theorem bigEndian_map_lt : ∀ w n m, n < m → m < 10 ^ w →
    (bigEndian w n).map digitChar < (bigEndian w m).map digitChar := by
  intro w
  induction w with
  | zero => intro n m h1 h2; simp at h2; omega
  | succ w ihw =>
    intro n m h1 h2
    have hmlt : m / 10 ^ w < 10 := by
      apply Nat.div_lt_of_lt_mul
      calc m < 10 ^ (w + 1) := h2
        _ = 10 ^ w * 10 := pow_succ 10 w
    have hnle : n / 10 ^ w ≤ m / 10 ^ w := Nat.div_le_div_right (le_of_lt h1)
    have hnlt : n / 10 ^ w < 10 := lt_of_le_of_lt hnle hmlt
    have hnm10 : n / 10 ^ w % 10 = n / 10 ^ w := Nat.mod_eq_of_lt hnlt
    have hmm10 : m / 10 ^ w % 10 = m / 10 ^ w := Nat.mod_eq_of_lt hmlt
    simp only [bigEndian, List.map_cons]
    rcases Nat.lt_or_ge (n / 10 ^ w) (m / 10 ^ w) with hlt | hge
    · rw [hnm10, hmm10]
      exact List.Lex.rel ((digitChar_lt_iff _ hnlt _ hmlt).2 hlt)
    · have heq : n / 10 ^ w = m / 10 ^ w := le_antisymm hnle hge
      rw [hnm10, hmm10, heq]
      apply List.Lex.cons
      have hn := Nat.div_add_mod n (10 ^ w)
      have hm := Nat.div_add_mod m (10 ^ w)
      rw [heq] at hn
      have h1' : n % 10 ^ w < m % 10 ^ w := by
        have hx : 10 ^ w * (m / 10 ^ w) + n % 10 ^ w
            < 10 ^ w * (m / 10 ^ w) + m % 10 ^ w := by
          rw [hn, hm]; exact h1
        exact Nat.lt_of_add_lt_add_left hx
      have h2' : m % 10 ^ w < 10 ^ w := Nat.mod_lt _ (pow_pos (by norm_num) w)
      have hrec := ihw (n % 10 ^ w) (m % 10 ^ w) h1' h2'
      rwa [bigEndian_mod, bigEndian_mod] at hrec

theorem zeroPadStr_data (w n : Nat) :
    (zeroPadStr w n).data = (zeroPadDigits w n).map digitChar := rfl

theorem zeroPadStr_data_lt (w i j : Nat) (hw : 1 ≤ w) (hij : i < j)
    (hj : j < 10 ^ w) : (zeroPadStr w i).data < (zeroPadStr w j).data := by
  rw [zeroPadStr_data, zeroPadStr_data,
    zeroPadDigits_eq_bigEndian w i hw (lt_trans hij hj),
    zeroPadDigits_eq_bigEndian w j hw hj]
  exact bigEndian_map_lt w i j hij hj

theorem string_data_append (s t : String) : (s ++ t).data = s.data ++ t.data := rfl

theorem nameFor_data (base : String) (w i : Nat) :
    (nameFor base w i).data
      = base.data ++ ('_' :: (zeroPadDigits w i).map digitChar) := by
  show (base ++ "_" ++ zeroPadStr w i).data = _
  rw [string_data_append, string_data_append, List.append_assoc]
  rfl

/-- Core of filename monotonicity: same prefix, same base, equal-width
zero-padded indices in order, arbitrary suffixes. -/
theorem name_lt_general (p base : String) (w i j : Nat) (e1 e2 : String)
    (hw : 1 ≤ w) (hij : i < j) (hj : j < 10 ^ w) :
    strLt (p ++ (nameFor base w i ++ e1)) (p ++ (nameFor base w j ++ e2)) := by
  show (p ++ (nameFor base w i ++ e1)).data < (p ++ (nameFor base w j ++ e2)).data
  rw [string_data_append, string_data_append, string_data_append,
    string_data_append, nameFor_data, nameFor_data]
  apply list_lt_append_left p.data
  rw [List.append_assoc, List.append_assoc]
  apply list_lt_append_left base.data
  simp only [List.cons_append]
  apply List.Lex.cons
  apply list_lt_append_of_length_eq
  · rw [List.length_map, List.length_map,
      zeroPadDigits_length w i hw (lt_trans hij hj),
      zeroPadDigits_length w j hw hj]
  · have := zeroPadStr_data_lt w i j hw hij hj
    rwa [zeroPadStr_data, zeroPadStr_data] at this

/-! ### Path and `_download_img` lemmas -/

theorem string_nil_append (b : String) : "" ++ b = b := by
  apply String.ext
  show [] ++ b.data = b.data
  simp

theorem os_path_join_eq (a b : String) (hb : b.data.head? ≠ some '/') :
    os_path_join a b = joinPre a ++ b := by
  rw [os_path_join, joinPre, if_neg hb]
  by_cases h1 : a = ""
  · rw [if_pos h1, if_pos h1, string_nil_append]
  · rw [if_neg h1, if_neg h1]
    by_cases h2 : a.data.getLast? = some '/'
    · rw [if_pos h2, if_pos h2]
    · rw [if_neg h2, if_neg h2]

theorem os_path_join_suffix (a b : String) : ∃ q, os_path_join a b = q ++ b := by
  rw [os_path_join]
  by_cases hb : b.data.head? = some '/'
  · exact ⟨"", by rw [if_pos hb, string_nil_append]⟩
  · rw [if_neg hb]
    by_cases h1 : a = ""
    · exact ⟨"", by rw [if_pos h1, string_nil_append]⟩
    · rw [if_neg h1]
      by_cases h2 : a.data.getLast? = some '/'
      · exact ⟨a, by rw [if_pos h2]⟩
      · exact ⟨a ++ "/", by rw [if_neg h2]⟩

theorem nameFor_head (nm : String) (w i : Nat) (hnm : nm.data.head? ≠ some '/') :
    ∃ c rest, (nameFor nm w i).data = c :: rest ∧ c ≠ '/' := by
  rw [nameFor_data]
  cases hd : nm.data with
  | nil => exact ⟨'_', _, rfl, by decide⟩
  | cons c l =>
    refine ⟨c, l ++ ('_' :: (zeroPadDigits w i).map digitChar), by simp, ?_⟩
    intro hc
    subst hc
    apply hnm
    rw [hd]
    rfl

theorem download_img_file_shape (link : String) (dir : Option String)
    (extd name : String) (mkdir : Bool) (snm : String)
    (fetch : Option (List Nat)) (fs : Fs) (f : String)
    (hhead : ∃ c rest, name.data = c :: rest ∧ c ≠ '/')
    (hsome : (download_img link dir extd name mkdir snm fetch fs).1 = some f) :
    ∃ e, f = filePrefix dir mkdir snm ++ (name ++ e) := by
  obtain ⟨c, rest, hdata, hc⟩ := hhead
  rw [download_img] at hsome
  by_cases hh : hasHttp link
  · rw [if_pos hh] at hsome
    set ext := if splitextExt (basename link) ∈ VALID_EXTENTION
      then splitextExt (basename link) else extd with hext
    have hb : (name ++ ext).data.head? ≠ some '/' := by
      rw [string_data_append, hdata]
      simp only [List.cons_append, List.head?_cons]
      intro hx
      exact hc (by injection hx)
    refine ⟨ext, ?_⟩
    rw [filePrefix]
    cases hcp : create_path_name dir mkdir snm with
    | none =>
      rw [hcp] at hsome
      cases fetch with
      | none => exact absurd hsome (by simp)
      | some bytes =>
        simp only [Option.some.injEq] at hsome
        rw [← hsome, string_nil_append]
    | some p =>
      rw [hcp] at hsome
      cases fetch with
      | none => exact absurd hsome (by simp)
      | some bytes =>
        simp only [Option.some.injEq] at hsome
        rw [← hsome, os_path_join_eq p (name ++ ext) hb]
  · rw [if_neg hh] at hsome
    exact absurd hsome (by simp)

theorem fsGet_fsSet (fs : Fs) (p : String) (v : List Nat) :
    fsGet (fsSet fs p v) p = some v := by
  show ((List.find? (fun e => e.1 == p) ((p, v) :: _)).map fun e => e.2) = some v
  rw [List.find?_cons_of_pos _ (by simp)]
  rfl

theorem download_img_none_effect (link : String) (dir : Option String)
    (extd name : String) (mkdir : Bool) (snm : String) (fs : Fs)
    (hh : hasHttp link = true) :
    ∃ p, download_img link dir extd name mkdir snm none fs = (none, fsSet fs p [])
      ∧ (∃ q e, p = q ++ (name ++ e)) := by
  rw [download_img, if_pos hh]
  cases hcp : create_path_name dir mkdir snm with
  | none => exact ⟨name ++ _, rfl, "", _, (string_nil_append _).symm⟩
  | some p =>
    refine ⟨os_path_join p (name ++ _), rfl, ?_⟩
    obtain ⟨q, hq⟩ := os_path_join_suffix p (name ++ _)
    exact ⟨q, _, hq⟩

/-! ### Per-thumbnail and loop invariants -/

theorem processThumb_count (g : GoogleImage) (nm : String) (n_str : Nat)
    (dir : Option String) (acc : Acc) (t : Thumb) :
    ((processThumb g nm n_str dir acc t).n_downloads = acc.n_downloads ∧
      (processThumb g nm n_str dir acc t).all_files = acc.all_files)
    ∨ (∃ f, (processThumb g nm n_str dir acc t).n_downloads = acc.n_downloads + 1 ∧
        (processThumb g nm n_str dir acc t).all_files = acc.all_files ++ [f]) := by
  obtain ⟨ad, src, fetch⟩ := t
  simp only [processThumb, verify_image]
  cases ad with
  | true =>
    left
    cases hv : g.verbose <;> simp
  | false =>
    cases src with
    | none =>
      left
      cases hv : g.verbose <;> simp
    | some link =>
      simp only [Bool.not_false, if_true]
      split
      · rename_i f heq
        right
        exact ⟨f, by simp, by simp⟩
      · left
        cases hv : g.verbose <;> simp

theorem processThumb_cases_name (g : GoogleImage) (nm : String) (n_str : Nat)
    (dir : Option String) (acc : Acc) (t : Thumb)
    (hnm : nm.data.head? ≠ some '/') :
    ((processThumb g nm n_str dir acc t).n_downloads = acc.n_downloads ∧
      (processThumb g nm n_str dir acc t).all_files = acc.all_files)
    ∨ (∃ e, (processThumb g nm n_str dir acc t).n_downloads = acc.n_downloads + 1 ∧
        (processThumb g nm n_str dir acc t).all_files = acc.all_files
          ++ [filePrefix dir g.make_dir nm
                ++ (nameFor nm n_str acc.n_downloads ++ e)]) := by
  obtain ⟨ad, src, fetch⟩ := t
  simp only [processThumb, verify_image]
  cases ad with
  | true =>
    left
    cases hv : g.verbose <;> simp
  | false =>
    cases src with
    | none =>
      left
      cases hv : g.verbose <;> simp
    | some link =>
      simp only [Bool.not_false, if_true]
      split
      · rename_i f heq
        right
        obtain ⟨e, hf⟩ := download_img_file_shape link dir g.ext_default
          (nameFor nm n_str acc.n_downloads) g.make_dir nm fetch acc.fs f
          (nameFor_head nm n_str acc.n_downloads hnm) heq
        exact ⟨e, by simp, by simp [hf]⟩
      · left
        cases hv : g.verbose <;> simp

theorem downloadLoop_acc (g : GoogleImage) (nm : String) (n_str : Nat)
    (dir : Option String) : ∀ (l : List Thumb) (acc : Acc),
    ∃ t : List String,
      (downloadLoop g nm n_str dir l acc).all_files = acc.all_files ++ t ∧
      (downloadLoop g nm n_str dir l acc).n_downloads = acc.n_downloads + t.length ∧
      t.length ≤ l.length := by
  intro l
  induction l with
  | nil => intro acc; exact ⟨[], by simp [downloadLoop], by simp [downloadLoop], by simp⟩
  | cons th rest ih =>
    intro acc
    obtain ⟨t, ha, hb, hc⟩ := ih (processThumb g nm n_str dir acc th)
    rcases processThumb_count g nm n_str dir acc th with ⟨h1, h2⟩ | ⟨f, h1, h2⟩
    · refine ⟨t, ?_, ?_, ?_⟩
      · show (downloadLoop g nm n_str dir rest (processThumb g nm n_str dir acc th)).all_files = _
        rw [ha, h2]
      · show (downloadLoop g nm n_str dir rest (processThumb g nm n_str dir acc th)).n_downloads = _
        rw [hb, h1]
      · simp only [List.length_cons]; omega
    · refine ⟨f :: t, ?_, ?_, ?_⟩
      · show (downloadLoop g nm n_str dir rest (processThumb g nm n_str dir acc th)).all_files = _
        rw [ha, h2, List.append_assoc]
        rfl
      · show (downloadLoop g nm n_str dir rest (processThumb g nm n_str dir acc th)).n_downloads = _
        rw [hb, h1, List.length_cons]
        omega
      · simp only [List.length_cons]; omega

theorem downloadLoop_names (g : GoogleImage) (nm : String) (n_str : Nat)
    (dir : Option String) (hnm : nm.data.head? ≠ some '/') :
    ∀ (l : List Thumb) (acc : Acc),
    ∃ t : List String,
      (downloadLoop g nm n_str dir l acc).all_files = acc.all_files ++ t ∧
      (downloadLoop g nm n_str dir l acc).n_downloads = acc.n_downloads + t.length ∧
      t.length ≤ l.length ∧
      ∀ k (hk : k < t.length), ∃ e, t.get ⟨k, hk⟩
        = filePrefix dir g.make_dir nm
            ++ (nameFor nm n_str (acc.n_downloads + k) ++ e) := by
  intro l
  induction l with
  | nil =>
    intro acc
    exact ⟨[], by simp [downloadLoop], by simp [downloadLoop], by simp,
      fun k hk => absurd hk (by simp)⟩
  | cons th rest ih =>
    intro acc
    obtain ⟨t, ha, hb, hc, hd⟩ := ih (processThumb g nm n_str dir acc th)
    rcases processThumb_cases_name g nm n_str dir acc th hnm with ⟨h1, h2⟩ | ⟨e, h1, h2⟩
    · refine ⟨t, ?_, ?_, ?_, ?_⟩
      · show (downloadLoop g nm n_str dir rest (processThumb g nm n_str dir acc th)).all_files = _
        rw [ha, h2]
      · show (downloadLoop g nm n_str dir rest (processThumb g nm n_str dir acc th)).n_downloads = _
        rw [hb, h1]
      · simp only [List.length_cons]; omega
      · intro k hk
        obtain ⟨e, he⟩ := hd k hk
        rw [h1] at he
        exact ⟨e, he⟩
    · refine ⟨(filePrefix dir g.make_dir nm
          ++ (nameFor nm n_str acc.n_downloads ++ e)) :: t, ?_, ?_, ?_, ?_⟩
      · show (downloadLoop g nm n_str dir rest (processThumb g nm n_str dir acc th)).all_files = _
        rw [ha, h2, List.append_assoc]
        rfl
      · show (downloadLoop g nm n_str dir rest (processThumb g nm n_str dir acc th)).n_downloads = _
        rw [hb, h1, List.length_cons]
        omega
      · simp only [List.length_cons]; omega
      · intro k hk
        cases k with
        | zero => exact ⟨e, by simp⟩
        | succ k0 =>
          have hk0 : k0 < t.length := by simpa using hk
          obtain ⟨e0, he0⟩ := hd k0 hk0
          rw [h1] at he0
          refine ⟨e0, ?_⟩
          show t.get ⟨k0, hk0⟩ = _
          rw [he0]
          have hidx : acc.n_downloads + 1 + k0 = acc.n_downloads + (k0 + 1) := by omega
          rw [hidx]

/-! ### `download`-level helpers -/

theorem download_snd (g : GoogleImage) (req : String) (nI : Nat)
    (dir : Option String) (nm : Option String) (thumbs : List Thumb) (fs : Fs) :
    (download g req nI dir nm thumbs fs).2
      = downloadLoop { g with name := some (effName req nm), n_images := nI }
          (effName req nm) (strLen nI) dir (iteratedThumbs g.verbose nI thumbs)
          { n_downloads := 0, n_unload := 0, n_clicks := 0,
            all_files := g.all_files, fs := fs } := rfl

theorem download_fst_files (g : GoogleImage) (req : String) (nI : Nat)
    (dir : Option String) (nm : Option String) (thumbs : List Thumb) (fs : Fs) :
    ((download g req nI dir nm thumbs fs).1).all_files
      = ((download g req nI dir nm thumbs fs).2).all_files := by
  simp only [download]
  split
  · simp [close]
  · simp

/-! ### `_scroll` termination lemma -/

theorem scrollLoop_ok (env : ScrollEnv) (nI k : Nat)
    (hinv : ∀ j, ∃ w h, env.loadMore j = some (w, h) ∧ (w = 0 ∨ h = 0))
    (hstab : env.heights k = env.heights (k - 1)) :
    ∀ fuel j, 1 ≤ j → j ≤ k → k - j < fuel →
      scrollLoop env nI (env.heights (j - 1)) j fuel = ScrollResult.ok := by
  intro fuel
  induction fuel with
  | zero => intro j h1 h2 h3; omega
  | succ f ihf =>
    intro j h1 h2 h3
    simp only [scrollLoop]
    by_cases heq : env.heights j = env.heights (j - 1)
    · rw [if_pos heq]
      obtain ⟨w, h, hw, hwh⟩ := hinv j
      rw [hw]
      have hcond : ¬ (0 < (w, h).2 ∧ 0 < (w, h).1) := by
        simp only []
        omega
      exact if_neg hcond
    · rw [if_neg heq]
      by_cases ht : nI < env.thumbs j
      · rw [if_pos ht]
      · rw [if_neg ht]
        have hjk : j < k := by
          by_contra hcon
          have hjeq : j = k := by omega
          subst hjeq
          exact heq hstab
        have hr := ihf (j + 1) (by omega) (by omega) (by omega)
        simpa using hr

/-! ### Claim C1 -/

/-- Claim C1, amended: within a single completed call to `download` with
`verbose = true`, the call's success counter `n_downloads` never exceeds
`n_images`, and the number of records appended to the session's `all_files`
equals that counter exactly. -/
theorem C1_claim (g : GoogleImage) (req : String) (nI : Nat)
    (dir : Option String) (nm : Option String) (thumbs : List Thumb) (fs : Fs)
    (hv : g.verbose = true) :
    ((download g req nI dir nm thumbs fs).2).n_downloads ≤ nI ∧
    ((download g req nI dir nm thumbs fs).2).all_files.length
      = g.all_files.length + ((download g req nI dir nm thumbs fs).2).n_downloads := by
  rw [download_snd]
  obtain ⟨t, ha, hb, hc⟩ := downloadLoop_acc
    { g with name := some (effName req nm), n_images := nI }
    (effName req nm) (strLen nI) dir (iteratedThumbs g.verbose nI thumbs)
    { n_downloads := 0, n_unload := 0, n_clicks := 0,
      all_files := g.all_files, fs := fs }
  rw [ha, hb]
  have hlen : (iteratedThumbs g.verbose nI thumbs).length ≤ nI := by
    rw [iteratedThumbs, hv, if_pos rfl, List.length_take]
    omega
  constructor
  · show 0 + t.length ≤ nI
    omega
  · show (g.all_files ++ t).length = g.all_files.length + (0 + t.length)
    simp [List.length_append]

/-- Claim C1 counterexample: with `verbose = false` the thumbnail list is
not truncated and no stop condition checks the counter, so a call with
`n_images = 1` over three harvestable thumbnails appends three records. -/
theorem C1_counterexample :
    ((download gNV "q" 1 none none [goodPng, goodPng, goodPng] []).2).all_files.length = 3 ∧
    ¬ (((download gNV "q" 1 none none [goodPng, goodPng, goodPng] []).2).all_files.length ≤ 1) := by
  decide

/-- Claim C1 witness: the amended statement at a concrete verbose session. -/
theorem C1_witness :
    ((download gV "q" 2 none none [goodPng, goodPng, goodPng] []).2).n_downloads ≤ 2 ∧
    ((download gV "q" 2 none none [goodPng, goodPng, goodPng] []).2).all_files.length
      = gV.all_files.length
        + ((download gV "q" 2 none none [goodPng, goodPng, goodPng] []).2).n_downloads :=
  C1_claim gV "q" 2 none none [goodPng, goodPng, goodPng] [] rfl

/-! ### Claim C2 -/

/-- Claim C2, amended: if the page height ever repeats across consecutive
reads and the `mye4qd` load-more control is present but has zero rendered
width or height whenever it is looked up, then `_scroll` terminates without
raising, with any sufficient iteration budget.  (When the control is absent
the driver lookup raises instead; see the counterexample.) -/
theorem C2_claim (env : ScrollEnv) (nI k fuel : Nat)
    (hinv : ∀ j, ∃ w h, env.loadMore j = some (w, h) ∧ (w = 0 ∨ h = 0))
    (hk : 1 ≤ k) (hstab : env.heights k = env.heights (k - 1)) (hfuel : k ≤ fuel) :
    scroll env nI fuel = ScrollResult.ok := by
  rw [scroll]
  exact scrollLoop_ok env nI k hinv hstab fuel 1 (le_refl 1) hk (by omega)

/-- Claim C2 counterexample: height stable, fewer thumbnails than
requested, and no load-more control present on the page at all; the claim
says the loop ends without error, but `find_element_by_class_name` raises
`NoSuchElementException`, which propagates. -/
theorem C2_counterexample :
    envAbsent.heights 1 = envAbsent.heights 0 ∧
    envAbsent.thumbs 1 ≤ 5 ∧ envAbsent.loadMore 1 = none ∧
    scroll envAbsent 5 3 = ScrollResult.noSuchElement := by
  decide

/-- Claim C2 witness: the amended statement at a concrete environment with
an invisible control. -/
theorem C2_witness : scroll envInvisible 5 4 = ScrollResult.ok :=
  C2_claim envInvisible 5 1 4 (fun _ => ⟨0, 0, rfl, Or.inl rfl⟩) (le_refl 1)
    rfl (by omega)

/-! ### Claim C3 -/

/-- Claim C3, amended: the extension is taken by `splitext` from the URL's
basename with no query-string stripping; whenever that raw suffix is not
exactly one of `.png`, `.jpg`, `.jpeg` (including when a query string
trails a valid extension, or when it is missing), the saved file name ends
in `ext_default`. -/
theorem C3_claim (link : String) (dir : Option String) (extd name snm : String)
    (mkdir : Bool) (bytes : List Nat) (fs : Fs)
    (hh : hasHttp link = true)
    (hval : splitextExt (basename link) ∉ VALID_EXTENTION) :
    ∃ q, (download_img link dir extd name mkdir snm (some bytes) fs).1
      = some (q ++ (name ++ extd)) := by
  simp only [download_img, hh, if_true, if_neg hval]
  cases hcp : create_path_name dir mkdir snm with
  | none => exact ⟨"", by rw [string_nil_append]⟩
  | some p =>
    obtain ⟨q, hq⟩ := os_path_join_suffix p (name ++ extd)
    refine ⟨q, ?_⟩
    show some (os_path_join p (name ++ extd)) = some (q ++ (name ++ extd))
    rw [hq]

/-- Claim C3 counterexample: the specification strips the query string, so
for `.../img.jpg?x=1` it keeps `.jpg`; the code passes the raw suffix
`.jpg?x=1` to the whitelist test and therefore substitutes `ext_default`,
saving `q/q_0.png` instead of `q/q_0.jpg`. -/
theorem C3_counterexample :
    specExt "http://a.com/img.jpg?x=1" ".png" = ".jpg" ∧
    (download_img "http://a.com/img.jpg?x=1" none ".png" "q_0" true "q"
        (some [7]) []).1 = some "q/q_0.png" ∧
    ("q/q_0.png" : String) ≠ "q/q_0.jpg" := by
  decide

/-- Claim C3 witness: the amended statement at the `.webp` example from
the claim. -/
theorem C3_witness :
    ∃ q, (download_img "http://x/a.webp" none ".png" "q_0" true "q"
        (some [7]) []).1 = some (q ++ ("q_0" ++ ".png")) :=
  C3_claim "http://x/a.webp" none ".png" "q_0" "q" true [7] [] (by decide)
    (by decide)

/-! ### Claim C4 -/

/-- Claim C4, amended: in one call the `i`-th success (0-based) is named
`{base}_{i zero-padded to width = digit-count(n_images)}` (with some
directory prefix and extension around it), and the file names are strictly
increasing in lexicographic order as long as the success indices stay below
`10 ^ width` — which holds whenever at most `n_images` successes occur, in
particular always in verbose mode.  Beyond that bound (possible only with
`verbose = false`) the order breaks; see the counterexample. -/
theorem C4_claim (g : GoogleImage) (req : String) (nI : Nat)
    (dir : Option String) (nm : Option String) (thumbs : List Thumb) (fs : Fs)
    (hnm : (effName req nm).data.head? ≠ some '/') :
    ∃ t : List String,
      ((download g req nI dir nm thumbs fs).2).all_files = g.all_files ++ t ∧
      (∀ k (hk : k < t.length), ∃ e, t.get ⟨k, hk⟩
        = filePrefix dir g.make_dir (effName req nm)
            ++ (nameFor (effName req nm) (strLen nI) k ++ e)) ∧
      (∀ i j (hi : i < t.length) (hj : j < t.length), i < j → j < 10 ^ strLen nI →
        strLt (t.get ⟨i, hi⟩) (t.get ⟨j, hj⟩)) := by
  rw [download_snd]
  obtain ⟨t, ha, hb, hc, hd⟩ := downloadLoop_names
    { g with name := some (effName req nm), n_images := nI }
    (effName req nm) (strLen nI) dir hnm (iteratedThumbs g.verbose nI thumbs)
    { n_downloads := 0, n_unload := 0, n_clicks := 0,
      all_files := g.all_files, fs := fs }
  refine ⟨t, ha, ?_, ?_⟩
  · intro k hk
    obtain ⟨e, he⟩ := hd k hk
    exact ⟨e, by simpa using he⟩
  · intro i j hi hj hij hjb
    obtain ⟨e1, he1⟩ := hd i hi
    obtain ⟨e2, he2⟩ := hd j hj
    have he1' : t.get ⟨i, hi⟩ = filePrefix dir g.make_dir (effName req nm)
        ++ (nameFor (effName req nm) (strLen nI) i ++ e1) := by simpa using he1
    have he2' : t.get ⟨j, hj⟩ = filePrefix dir g.make_dir (effName req nm)
        ++ (nameFor (effName req nm) (strLen nI) j ++ e2) := by simpa using he2
    rw [he1', he2']
    exact name_lt_general _ _ (strLen nI) i j e1 e2 (strLen_pos nI) hij hjb

/-- Claim C4 counterexample: with `verbose = false` the counter can pass
`10 ^ width`; at `n_images = 1` (width 1), the 10th success is `q_10`,
which sorts lexicographically before the 9th success `q_9`, so file names
are not strictly increasing as the claim states for every run. -/
theorem C4_counterexample :
    ((download gNV "q" 1 none none (List.replicate 11 goodPng) []).2).all_files[9]?
      = some "q/q_9.png" ∧
    ((download gNV "q" 1 none none (List.replicate 11 goodPng) []).2).all_files[10]?
      = some "q/q_10.png" ∧
    ¬ strLt "q/q_9.png" "q/q_10.png" := by
  decide

/-- Claim C4 witness: the amended statement at the claim's own scenario
(three successes, `n_images = 3`), with the order instantiated. -/
theorem C4_witness :
    ((download gV "cat" 3 none none [goodJpg, goodJpg, goodJpg] []).2).all_files
      = ["cat/cat_0.jpg", "cat/cat_1.jpg", "cat/cat_2.jpg"] ∧
    strLt "cat/cat_0.jpg" "cat/cat_1.jpg" ∧
    strLt "cat/cat_1.jpg" "cat/cat_2.jpg" := by
  obtain ⟨t, ha, hb, hc⟩ :=
    C4_claim gV "cat" 3 none none [goodJpg, goodJpg, goodJpg] [] (by decide)
  have hfiles : ((download gV "cat" 3 none none [goodJpg, goodJpg, goodJpg] []).2).all_files
      = ["cat/cat_0.jpg", "cat/cat_1.jpg", "cat/cat_2.jpg"] := by decide
  have ht : t = ["cat/cat_0.jpg", "cat/cat_1.jpg", "cat/cat_2.jpg"] := by
    have hx := ha
    rw [hfiles] at hx
    simpa [gV, init] using hx.symm
  subst ht
  refine ⟨hfiles, ?_, ?_⟩
  · exact hc 0 1 (by decide) (by decide) (by decide) (by decide)
  · exact hc 1 2 (by decide) (by decide) (by decide) (by decide)

/-! ### Claim C5 -/

/-- Claim C5, confirmed: a thumbnail whose markup carries the sponsored
marker class fails `_verify_image`, is never clicked, triggers no
resolution or download, appends no record, and the loop moves on to the
next thumbnail (only the verbose unloaded counter may move). -/
theorem C5_claim (g : GoogleImage) (nm : String) (n_str : Nat)
    (dir : Option String) (acc : Acc) (t : Thumb) (rest : List Thumb)
    (h : t.adMarker = true) :
    verify_image t = false ∧
    processThumb g nm n_str dir acc t
      = (if g.verbose then { acc with n_unload := acc.n_unload + 1 } else acc) ∧
    downloadLoop g nm n_str dir (t :: rest) acc
      = downloadLoop g nm n_str dir rest
          (if g.verbose then { acc with n_unload := acc.n_unload + 1 } else acc) := by
  have hv : verify_image t = false := by simp [verify_image, h]
  have hp : processThumb g nm n_str dir acc t
      = (if g.verbose then { acc with n_unload := acc.n_unload + 1 } else acc) := by
    simp only [processThumb, hv, Bool.false_eq_true, if_false]
  refine ⟨hv, hp, ?_⟩
  show downloadLoop g nm n_str dir rest (processThumb g nm n_str dir acc t) = _
  rw [hp]

/-- Claim C5 witness: the statement at a concrete ad-marked thumbnail. -/
theorem C5_witness :
    verify_image adThumb = false ∧
    processThumb gV "q" 1 none emptyAcc adThumb
      = (if gV.verbose then { emptyAcc with n_unload := emptyAcc.n_unload + 1 }
          else emptyAcc) ∧
    downloadLoop gV "q" 1 none (adThumb :: []) emptyAcc
      = downloadLoop gV "q" 1 none []
          (if gV.verbose then { emptyAcc with n_unload := emptyAcc.n_unload + 1 }
            else emptyAcc) :=
  C5_claim gV "q" 1 none emptyAcc adThumb [] rfl

/-! ### Claim C6 -/

/-- Claim C6, confirmed: when the fetch-and-write step raises (modelled by
`fetchBytes = none`), `_download_img` returns no path, the success counter
and the record list are unchanged, and the loop continues with the rest of
the thumbnails; the failure never escapes the iteration. -/
theorem C6_claim (g : GoogleImage) (nm : String) (n_str : Nat)
    (dir : Option String) (acc : Acc) (t : Thumb) (rest : List Thumb)
    (link : String) (h1 : t.adMarker = false) (h2 : t.srcLink = some link)
    (h3 : hasHttp link = true) (h4 : t.fetchBytes = none) :
    (download_img link dir g.ext_default (nameFor nm n_str acc.n_downloads)
        g.make_dir nm none acc.fs).1 = none ∧
    (processThumb g nm n_str dir acc t).n_downloads = acc.n_downloads ∧
    (processThumb g nm n_str dir acc t).all_files = acc.all_files ∧
    downloadLoop g nm n_str dir (t :: rest) acc
      = downloadLoop g nm n_str dir rest (processThumb g nm n_str dir acc t) := by
  obtain ⟨ad, src, fetch⟩ := t
  have h1' : ad = false := h1
  have h2' : src = some link := h2
  have h4' : fetch = none := h4
  subst h1'
  subst h2'
  subst h4'
  have hdl : (download_img link dir g.ext_default (nameFor nm n_str acc.n_downloads)
      g.make_dir nm none acc.fs).1 = none := by
    rw [download_img, if_pos h3]
  refine ⟨hdl, ?_, ?_, rfl⟩
  · simp only [processThumb, verify_image, Bool.not_false, if_true, hdl]
    cases hv : g.verbose <;> simp
  · simp only [processThumb, verify_image, Bool.not_false, if_true, hdl]
    cases hv : g.verbose <;> simp

/-- Claim C6 witness: the statement at a concrete thumbnail whose fetch
raises. -/
theorem C6_witness :
    (download_img "http://x/a.png" none gV.ext_default
        (nameFor "q" 1 emptyAcc.n_downloads) gV.make_dir "q" none emptyAcc.fs).1
      = none ∧
    (processThumb gV "q" 1 none emptyAcc failThumb).n_downloads
      = emptyAcc.n_downloads ∧
    (processThumb gV "q" 1 none emptyAcc failThumb).all_files
      = emptyAcc.all_files ∧
    downloadLoop gV "q" 1 none (failThumb :: []) emptyAcc
      = downloadLoop gV "q" 1 none []
          (processThumb gV "q" 1 none emptyAcc failThumb) :=
  C6_claim gV "q" 1 none emptyAcc failThumb [] "http://x/a.png" rfl rfl
    (by decide) rfl

/-! ### Claim C7 -/

/-- Claim C7, confirmed: after any completed call to `download` — whatever
the thumbnails, including early termination with fewer records — the
browser handle is closed exactly when `close_after_download` is set, and is
left as it was otherwise. -/
theorem C7_claim (g : GoogleImage) (req : String) (nI : Nat)
    (dir : Option String) (nm : Option String) (thumbs : List Thumb) (fs : Fs) :
    ((download g req nI dir nm thumbs fs).1).driverOpen
      = (if g.close_after_download then false else g.driverOpen) := by
  simp only [download]
  split
  · rename_i h
    have hc : g.close_after_download = true := h
    simp [close, hc]
  · rename_i h
    have hc : ¬ g.close_after_download = true := h
    simp [hc]

/-! ### Claim C8 -/

/-- Claim C8, confirmed: for a link containing `http`, `open(file, "wb")`
truncates the destination before the fetch runs, so a raising fetch leaves
an empty file at the computed path while the call returns `None` and
contributes no record. -/
theorem C8_claim (link : String) (dir : Option String) (extd name snm : String)
    (mkdir : Bool) (fs : Fs) (hh : hasHttp link = true) :
    (download_img link dir extd name mkdir snm none fs).1 = none ∧
    ∃ p, (download_img link dir extd name mkdir snm none fs).2 = fsSet fs p [] ∧
      fsGet ((download_img link dir extd name mkdir snm none fs).2) p = some [] ∧
      ∃ q e, p = q ++ (name ++ e) := by
  obtain ⟨p, hp, hq⟩ := download_img_none_effect link dir extd name mkdir snm fs hh
  refine ⟨?_, p, ?_, ?_, hq⟩
  · rw [hp]
  · rw [hp]
  · rw [hp]
    exact fsGet_fsSet fs p []

/-- Claim C8 witness: a concrete failed fetch leaves a readable empty file
behind. -/
theorem C8_witness :
    (download_img "http://a.com/img.jpg" none ".png" "q_0" true "q" none []).1
      = none ∧
    fsGet (download_img "http://a.com/img.jpg" none ".png" "q_0" true "q"
        none []).2 "q/q_0.jpg" = some [] := by
  refine ⟨(C8_claim "http://a.com/img.jpg" none ".png" "q_0" "q" true []
    (by decide)).1, ?_⟩
  decide

/-! ### Claim C9 -/

/-- Claim C9, confirmed: the harvesting loop ranges over
`all_img[:n_images]` when `verbose` holds but over the full element list
when it does not, so the number of processed thumbnails is bounded by
`n_images` only in verbose mode; the loop state of `download` is exactly
the fold over that list. -/
theorem C9_claim (g : GoogleImage) (req : String) (nI : Nat)
    (dir : Option String) (nm : Option String) (thumbs : List Thumb) (fs : Fs) :
    (g.verbose = true →
      iteratedThumbs g.verbose nI thumbs = thumbs.take nI ∧
      (iteratedThumbs g.verbose nI thumbs).length ≤ nI) ∧
    (g.verbose = false → iteratedThumbs g.verbose nI thumbs = thumbs) ∧
    (download g req nI dir nm thumbs fs).2
      = downloadLoop { g with name := some (effName req nm), n_images := nI }
          (effName req nm) (strLen nI) dir (iteratedThumbs g.verbose nI thumbs)
          { n_downloads := 0, n_unload := 0, n_clicks := 0,
            all_files := g.all_files, fs := fs } := by
  refine ⟨?_, ?_, download_snd g req nI dir nm thumbs fs⟩
  · intro hv
    rw [iteratedThumbs, hv, if_pos rfl]
    exact ⟨rfl, by rw [List.length_take]; omega⟩
  · intro hv
    rw [iteratedThumbs, hv]
    simp

/-- Claim C9 witness: with `verbose = false` a three-element list survives
`n_images = 1` untruncated, while with `verbose = true` it is cut down. -/
theorem C9_witness :
    iteratedThumbs gNV.verbose 1 [goodPng, goodPng, goodPng]
      = [goodPng, goodPng, goodPng] ∧
    (iteratedThumbs gV.verbose 1 [goodPng, goodPng, goodPng]).length ≤ 1 := by
  refine ⟨?_, ?_⟩
  · exact (C9_claim gNV "q" 1 none none [goodPng, goodPng, goodPng] []).2.1 rfl
  · exact ((C9_claim gV "q" 1 none none [goodPng, goodPng, goodPng] []).1 rfl).2

/-! ### Claim C10 -/

/-- Claim C10, confirmed: `download` only ever appends to `all_files`; over
two consecutive calls on the same session the list is the original records
followed by the first call's new records, then the second call's, in
order. -/
theorem C10_claim (g : GoogleImage) (r1 : String) (n1 : Nat)
    (d1 : Option String) (m1 : Option String) (th1 : List Thumb) (fs1 : Fs)
    (r2 : String) (n2 : Nat) (d2 : Option String) (m2 : Option String)
    (th2 : List Thumb) (fs2 : Fs) :
    ∃ new1 new2 : List String,
      ((download g r1 n1 d1 m1 th1 fs1).1).all_files = g.all_files ++ new1 ∧
      ((download (download g r1 n1 d1 m1 th1 fs1).1 r2 n2 d2 m2 th2 fs2).1).all_files
        = (g.all_files ++ new1) ++ new2 := by
  obtain ⟨t1, ha1, hb1, hc1⟩ := downloadLoop_acc
    { g with name := some (effName r1 m1), n_images := n1 }
    (effName r1 m1) (strLen n1) d1 (iteratedThumbs g.verbose n1 th1)
    { n_downloads := 0, n_unload := 0, n_clicks := 0,
      all_files := g.all_files, fs := fs1 }
  have h1 : ((download g r1 n1 d1 m1 th1 fs1).1).all_files = g.all_files ++ t1 := by
    rw [download_fst_files, download_snd]
    exact ha1
  obtain ⟨t2, ha2, hb2, hc2⟩ := downloadLoop_acc
    { (download g r1 n1 d1 m1 th1 fs1).1 with
        name := some (effName r2 m2), n_images := n2 }
    (effName r2 m2) (strLen n2) d2
    (iteratedThumbs ((download g r1 n1 d1 m1 th1 fs1).1).verbose n2 th2)
    { n_downloads := 0, n_unload := 0, n_clicks := 0,
      all_files := ((download g r1 n1 d1 m1 th1 fs1).1).all_files, fs := fs2 }
  refine ⟨t1, t2, h1, ?_⟩
  rw [download_fst_files, download_snd, ha2]
  show ((download g r1 n1 d1 m1 th1 fs1).1).all_files ++ t2 = _
  rw [h1]

end GoogleDL
